import Mathlib

/-!
Verification development for the rayz SDF ray-marching renderer.

The Rust sources (src/sdf.rs and src/main.rs) are embedded shallowly:
scalars (Rust f32) become real numbers, the raylib Vector3 type becomes
the structure Vec3 below with the raylib componentwise operations, the
boxed-trait-object shape set becomes a closed inductive type, and the
HashMap of the Scene becomes a list of shapes (the iteration order of the
HashMap is unspecified in Rust; every theorem below is insensitive to the
list order except through the explicit minimum reduction, which mirrors
the min_by call of the source).
-/

set_option maxHeartbeats 1000000

/-- 3D vector of reals, embedding raylib Vector3 (f32 components). -/
structure Vec3 where
  x : ℝ
  y : ℝ
  z : ℝ

/-- Componentwise addition, embedding Vector3 Add. -/
def Vec3.add (a b : Vec3) : Vec3 :=
  ⟨a.x + b.x, a.y + b.y, a.z + b.z⟩

instance : Add Vec3 :=
  ⟨Vec3.add⟩

/-- Componentwise subtraction, embedding Vector3 Sub. -/
def Vec3.sub (a b : Vec3) : Vec3 :=
  ⟨a.x - b.x, a.y - b.y, a.z - b.z⟩

instance : Sub Vec3 :=
  ⟨Vec3.sub⟩

/-- Scaling by a scalar, embedding Vector3 * f32. -/
def Vec3.smul (v : Vec3) (s : ℝ) : Vec3 :=
  ⟨v.x * s, v.y * s, v.z * s⟩

/-- Subtracting a scalar from every component, embedding Vector3 - f32. -/
def Vec3.subScalar (v : Vec3) (s : ℝ) : Vec3 :=
  ⟨v.x - s, v.y - s, v.z - s⟩

/-- Dot product, embedding Vector3::dot. -/
def Vec3.dot (a b : Vec3) : ℝ :=
  a.x * b.x + a.y * b.y + a.z * b.z

/-- Cross product, embedding Vector3::cross. -/
def Vec3.cross (a b : Vec3) : Vec3 :=
  ⟨a.y * b.z - a.z * b.y, a.z * b.x - a.x * b.z, a.x * b.y - a.y * b.x⟩

/-- Euclidean length, embedding Vector3::length. -/
noncomputable def Vec3.length (v : Vec3) : ℝ :=
  Real.sqrt (Vec3.dot v v)

/-- Normalization, embedding Vector3::normalized of raylib: the length is
replaced by 1 when it is zero, then each component is scaled by its
inverse. -/
noncomputable def Vec3.normalized (v : Vec3) : Vec3 :=
  Vec3.smul v (1 / (if Vec3.length v = 0 then 1 else Vec3.length v))

/-- Componentwise maximum, embedding Vector3::max. -/
def Vec3.vmax (a b : Vec3) : Vec3 :=
  ⟨max a.x b.x, max a.y b.y, max a.z b.z⟩

/-- Componentwise clamp into a range, embedding Vector3::clamp(lo..hi). -/
def Vec3.clampRange (v : Vec3) (lo hi : ℝ) : Vec3 :=
  ⟨min (max v.x lo) hi, min (max v.y lo) hi, min (max v.z lo) hi⟩

/-- Sum of a list of vectors (used to state the multi-light accumulation). -/
def sumVec : List Vec3 → Vec3
  | [] => ⟨0, 0, 0⟩
  | v :: vs => v + sumVec vs

/-- Hit threshold of the marching loop: const EPSILON = 0.0001 in sdf.rs. -/
def EPSILON : ℝ := 0.0001

/-- Step budget of the marching loop: const MAX_MARCHING_STEPS = 100. -/
def MAX_MARCHING_STEPS : ℕ := 100

/-- Central-difference offset of Sdf::surface_normal: the const EPSILON =
0.0005 declared inside the surface_normal body of sdf.rs (renamed here
because it shadows the marching EPSILON in the source). -/
def SURFACE_NORMAL_EPSILON : ℝ := 0.0005

/-- Componentwise absolute value: fn absolute of sdf.rs. -/
def absolute (v : Vec3) : Vec3 :=
  ⟨|v.x|, |v.y|, |v.z|⟩

/-- The closed set of shapes of the program: Sphere and Cube of sdf.rs,
each carrying its SdfId. -/
inductive Shape where
  | sphere (id : ℕ) (center : Vec3) (radius : ℝ)
  | cube (id : ℕ) (center : Vec3) (length : ℝ)

/-- Shape identity: the id methods of the Sdf impls. -/
def Shape.id : Shape → ℕ
  | .sphere i _ _ => i
  | .cube i _ _ => i

/-- The signed distance functions: the sdf methods of the Sphere and Cube
impls in sdf.rs. The cube case is the literal source expression
q.max(zero).length() + q.y.max(q.z).max(q.x).min(0.0). -/
noncomputable def Shape.sdf (s : Shape) (p : Vec3) : ℝ :=
  match s with
  | .sphere _ c r => Vec3.length (p - c) - r
  | .cube _ c l =>
    let q := Vec3.subScalar (absolute (p - c)) l
    Vec3.length (Vec3.vmax q ⟨0, 0, 0⟩) + min (max (max q.y q.z) q.x) 0

/-- The default dist method of the Sdf trait: the pair (sdf, id). -/
noncomputable def Shape.dist (s : Shape) (p : Vec3) : ℝ × ℕ :=
  (Shape.sdf s p, Shape.id s)

/-- The default surface_normal method of the Sdf trait: normalized
central-difference gradient of this shape's own sdf. -/
noncomputable def surface_normal (s : Shape) (point : Vec3) : Vec3 :=
  let dx := Shape.sdf s ⟨point.x + SURFACE_NORMAL_EPSILON, point.y, point.z⟩ -
    Shape.sdf s ⟨point.x - SURFACE_NORMAL_EPSILON, point.y, point.z⟩
  let dy := Shape.sdf s ⟨point.x, point.y + SURFACE_NORMAL_EPSILON, point.z⟩ -
    Shape.sdf s ⟨point.x, point.y - SURFACE_NORMAL_EPSILON, point.z⟩
  let dz := Shape.sdf s ⟨point.x, point.y, point.z + SURFACE_NORMAL_EPSILON⟩ -
    Shape.sdf s ⟨point.x, point.y, point.z - SURFACE_NORMAL_EPSILON⟩
  Vec3.normalized ⟨dx, dy, dz⟩

/-- The scene: the objects HashMap of sdf.rs as a list of shapes. -/
structure Scene where
  objects : List Shape

/-- The min_by reduction of Scene::ray_march: minimum by first component,
keeping the earlier element on ties (the comparator of the source maps the
NaN case to Less; over the reals the comparison is total). -/
noncomputable def minByNearest : List (ℝ × ℕ) → Option (ℝ × ℕ)
  | [] => none
  | p :: ps => some (ps.foldl (fun a b => if b.1 < a.1 then b else a) p)

/-- The union reduction inside Scene::ray_march: map every object to its
dist pair and take the minimum by distance. -/
noncomputable def sceneDist (sc : Scene) (point : Vec3) : Option (ℝ × ℕ) :=
  minByNearest (sc.objects.map (fun o => Shape.dist o point))

/-- The loop body of Scene::ray_march, with the remaining iteration count
as explicit fuel: sample the union distance at pos + ray * depth, succeed
when it is at most EPSILON, otherwise advance depth by it. -/
noncomputable def rayMarchAux (sc : Scene) (pos ray : Vec3) : ℕ → ℝ → Option (Vec3 × ℕ)
  | 0, _ => none
  | n + 1, depth =>
    match sceneDist sc (pos + Vec3.smul ray depth) with
    | none => none
    | some (dist, obj) =>
      if dist ≤ EPSILON then some (pos + Vec3.smul ray depth, obj)
      else rayMarchAux sc pos ray n (depth + dist)

/-- Scene::ray_march of sdf.rs: MAX_MARCHING_STEPS iterations starting
from depth 0. -/
noncomputable def ray_march (sc : Scene) (pos ray : Vec3) : Option (Vec3 × ℕ) :=
  rayMarchAux sc pos ray MAX_MARCHING_STEPS 0

/-- The depth reached by the marching loop after k iterations (constant
when the scene is empty, in which case the loop has already returned). -/
noncomputable def marchDepth (sc : Scene) (pos ray : Vec3) : ℕ → ℝ
  | 0 => 0
  | k + 1 =>
    let d := marchDepth sc pos ray k
    match sceneDist sc (pos + Vec3.smul ray d) with
    | none => d
    | some (dist, _) => d + dist

/-- The sample point of iteration k of the marching loop. -/
noncomputable def marchPoint (sc : Scene) (pos ray : Vec3) (k : ℕ) : Vec3 :=
  pos + Vec3.smul ray (marchDepth sc pos ray k)

/-- Iteration k samples a union distance at most EPSILON. -/
def marchHit (sc : Scene) (pos ray : Vec3) (k : ℕ) : Prop :=
  ∃ d o, sceneDist sc (marchPoint sc pos ray k) = some (d, o) ∧ d ≤ EPSILON

/-- The camera of main.rs. -/
structure Camera where
  eye : Vec3
  target : Vec3
  up : Vec3

/-- A light source of main.rs. -/
structure LightSource where
  pos : Vec3
  specular : Vec3
  diffuse : Vec3

/-- The lighting configuration of main.rs. -/
structure Lighting where
  ia : ℝ
  alpha : ℝ
  light_sources : List LightSource

/-- The per-light Phong contribution accumulated by Lighting::illuminate:
diffuse * (max(l.n, 0) + ia) + specular * max(v.r, 0)^alpha, with l the
light direction, n the shape normal and v the view direction. -/
noncomputable def lightContribution (lt : Lighting) (n v p : Vec3) (ls : LightSource) : Vec3 :=
  let l := Vec3.normalized (ls.pos - p)
  let r := Vec3.normalized (Vec3.smul (Vec3.smul n (Vec3.dot l n)) 2 - l)
  let diffuse_f := max (Vec3.dot l n) 0
  let specular_f := max (Vec3.dot v r) 0 ^ lt.alpha
  Vec3.smul ls.diffuse (diffuse_f + lt.ia) + Vec3.smul ls.specular specular_f

/-- Lighting::illuminate of main.rs: fold the per-light contributions into
a running sum starting from the zero vector, scale by 255, clamp each
channel into [0, 255]. -/
noncomputable def illuminate (lt : Lighting) (camera : Camera) (p : Vec3) (object : Shape) : Vec3 :=
  let n := surface_normal object p
  let v := Vec3.normalized (camera.eye - p)
  let ip := lt.light_sources.foldl (fun ip ls => ip + lightContribution lt n v p ls) ⟨0, 0, 0⟩
  Vec3.clampRange (Vec3.smul ip 255) 0 255

/-- fn v3_into_color of main.rs. The two assertions become the guard of
the option: none models an assertion failure, some models the Color value
(each f32 channel cast to u8 by truncation; alpha is the constant 255). -/
noncomputable def v3_into_color (v : Vec3) : Option (ℕ × ℕ × ℕ × ℕ) :=
  if 0 ≤ v.x ∧ 0 ≤ v.y ∧ 0 ≤ v.z ∧ v.x ≤ 255 ∧ v.y ≤ 255 ∧ v.z ≤ 255 then
    some ((⌊v.x⌋).toNat, (⌊v.y⌋).toNat, (⌊v.z⌋).toNat, 255)
  else
    none

/-- const RENDER_VIEWPORT of main.rs. -/
def RENDER_VIEWPORT : ℕ := 300

/-- One pixel task of fn draw of main.rs: build the camera basis, the
normalized device coordinates at the pixel center, the primary ray;
march; on a hit, look the owner up in the scene and shade it. The none
result models a pixel left as background. -/
noncomputable def renderPixel (sc : Scene) (camera : Camera) (lt : Lighting) (fov : ℝ)
    (xy : ℕ × ℕ) : Option (ℕ × ℕ × Vec3) :=
  let aspect : ℝ := (RENDER_VIEWPORT : ℝ) / (RENDER_VIEWPORT : ℝ)
  let scale : ℝ := Real.tan (fov * 0.5 * (Real.pi / 180))
  let forward := Vec3.normalized (camera.target - camera.eye)
  let right := Vec3.normalized (Vec3.cross forward camera.up)
  let true_up := Vec3.cross right forward
  let x_normalized := ((xy.1 : ℝ) + 0.5) / (RENDER_VIEWPORT : ℝ) * 2 - 1
  let y_normalized := ((xy.2 : ℝ) + 0.5) / (RENDER_VIEWPORT : ℝ) * 2 - 1
  let pcs : Vec3 := ⟨x_normalized * aspect * scale, y_normalized * scale, 1⟩
  let ray := Vec3.normalized
    (Vec3.smul right pcs.x + Vec3.smul true_up pcs.y + Vec3.smul forward pcs.z)
  match ray_march sc camera.eye ray with
  | some (point, oid) =>
    match sc.objects.find? (fun o => Shape.id o == oid) with
    | some object => some (xy.1, xy.2, illuminate lt camera point object)
    | none => none
  | none => none

/-- The pixel grid of fn draw: x outer, y inner. -/
def pixelList : List (ℕ × ℕ) :=
  (List.range RENDER_VIEWPORT).flatMap (fun x => (List.range RENDER_VIEWPORT).map (fun y => (x, y)))

/-- The to_draw list of fn draw: every pixel whose ray hits contributes
one (x, y, color) entry. -/
noncomputable def renderEntries (sc : Scene) (camera : Camera) (lt : Lighting) (fov : ℝ) :
    List (ℕ × ℕ × Vec3) :=
  pixelList.filterMap (renderPixel sc camera lt fov)

/-- The per-frame key state consumed by fn check_movement (each flag is
the disjunction is_key_pressed or is_key_down of the source macro). -/
structure Keys where
  w : Bool
  s : Bool
  a : Bool
  d : Bool
  space : Bool
  c : Bool
  q : Bool
  e : Bool

/-- fn check_movement of main.rs: the six sequential conditional camera
updates (the Q and E branches of the source are empty). -/
def check_movement (camera : Camera) (k : Keys) : Camera :=
  let camera := if k.w then
    { camera with eye := { camera.eye with z := camera.eye.z + 0.1 },
                  target := { camera.target with z := camera.target.z + 0.1 } }
    else camera
  let camera := if k.s then
    { camera with eye := { camera.eye with z := camera.eye.z - 0.1 },
                  target := { camera.target with z := camera.target.z - 0.1 } }
    else camera
  let camera := if k.a then
    { camera with eye := { camera.eye with x := camera.eye.x - 0.1 },
                  target := { camera.target with x := camera.target.x - 0.1 } }
    else camera
  let camera := if k.d then
    { camera with eye := { camera.eye with x := camera.eye.x + 0.1 },
                  target := { camera.target with x := camera.target.x + 0.1 } }
    else camera
  let camera := if k.space then
    { camera with eye := { camera.eye with y := camera.eye.y + 0.1 } }
    else camera
  let camera := if k.c then
    { camera with eye := { camera.eye with y := camera.eye.y - 0.1 } }
    else camera
  camera

/-- Modelled from the spec: the nearest-surface distance value of the
scene at a point (the first component of the union reduction; 0 when the
scene owns no shape, a case no claim exercises). The source has no
free-standing scalar field function, it only forms this value inside
Scene::ray_march. -/
noncomputable def sceneSdfVal (sc : Scene) (p : Vec3) : ℝ :=
  match sceneDist sc p with
  | some dv => dv.1
  | none => 0

/-- Modelled from the spec: the normalized central-difference gradient of
the combined (union) distance field of the whole scene, sampled with the
surface-normal offset. This is the normal the spec claims the shading
uses; the source computes surface_normal on the single hit shape instead. -/
noncomputable def sceneFieldNormal (sc : Scene) (point : Vec3) : Vec3 :=
  let dx := sceneSdfVal sc ⟨point.x + SURFACE_NORMAL_EPSILON, point.y, point.z⟩ -
    sceneSdfVal sc ⟨point.x - SURFACE_NORMAL_EPSILON, point.y, point.z⟩
  let dy := sceneSdfVal sc ⟨point.x, point.y + SURFACE_NORMAL_EPSILON, point.z⟩ -
    sceneSdfVal sc ⟨point.x, point.y - SURFACE_NORMAL_EPSILON, point.z⟩
  let dz := sceneSdfVal sc ⟨point.x, point.y, point.z + SURFACE_NORMAL_EPSILON⟩ -
    sceneSdfVal sc ⟨point.x, point.y, point.z - SURFACE_NORMAL_EPSILON⟩
  Vec3.normalized ⟨dx, dy, dz⟩

/-- The normal used for shading a hit (point, id) pair: fn draw looks the
id up with Scene::get_object and Lighting::illuminate calls
surface_normal on that single object. The none branch of the lookup
models the unwrap panic of get_object and is unreachable for ids produced
by the marcher. -/
noncomputable def shadingNormal (sc : Scene) (oid : ℕ) (p : Vec3) : Vec3 :=
  match sc.objects.find? (fun o => Shape.id o == oid) with
  | some object => surface_normal object p
  | none => ⟨0, 0, 0⟩

/-- The box SDF exactly as the spec words it (section 4.1), to be compared
with the Cube sdf of the source. -/
noncomputable def boxSdfSpec (center : Vec3) (halfExtent : ℝ) (p : Vec3) : ℝ :=
  let q := Vec3.subScalar (absolute (p - center)) halfExtent
  Vec3.length (Vec3.vmax q ⟨0, 0, 0⟩) + min (max q.x (max q.y q.z)) 0

/-- The concrete two-cube scene used to separate the two normal fields:
the unit-half-extent cube at the origin and a second one whose interior
overlaps it diagonally. -/
def cubeA : Shape := Shape.cube 0 ⟨0, 0, 0⟩ 1

/-- The second cube of the two-cube scene. -/
def cubeB : Shape := Shape.cube 1 ⟨1.9, 1.9, 0⟩ 1

/-- The two-cube scene. -/
def twoCubes : Scene := ⟨[cubeA, cubeB]⟩

/-- A ray origin inside both cubes, close to the interior locus where the
union minimum switches owner. -/
def mpos : Vec3 := ⟨0.9504, 0.95, 0⟩

/-- A unit ray direction for the two-cube scene. -/
def mray : Vec3 := ⟨0, 0, 1⟩

/-! ## Theorems -/

theorem Vec3.add_def (a b : Vec3) : a + b = ⟨a.x + b.x, a.y + b.y, a.z + b.z⟩ := rfl

theorem Vec3.sub_def (a b : Vec3) : a - b = ⟨a.x - b.x, a.y - b.y, a.z - b.z⟩ := rfl

theorem Vec3.add_zero_vec (a : Vec3) : a + ⟨0, 0, 0⟩ = a := by
  cases a
  simp [Vec3.add_def]

theorem Vec3.zero_add_vec (a : Vec3) : (⟨0, 0, 0⟩ : Vec3) + a = a := by
  cases a
  simp [Vec3.add_def]

theorem Vec3.smul_zero_eq (v : Vec3) : Vec3.smul v 0 = ⟨0, 0, 0⟩ := by
  simp [Vec3.smul]

theorem add_smul_zero (pos ray : Vec3) : pos + Vec3.smul ray 0 = pos := by
  rw [Vec3.smul_zero_eq, Vec3.add_zero_vec]

/-- Claim C8 counterexample: the claim that the central-difference offset
of the normal estimator is strictly smaller than the marching hit
threshold is false: the offset is 0.0005 while the threshold is 0.0001. -/
theorem surface_normal_offset_not_smaller :
    ¬ (SURFACE_NORMAL_EPSILON ≠ EPSILON ∧ SURFACE_NORMAL_EPSILON < EPSILON) := by
  intro h
  have h2 := h.2
  norm_num [SURFACE_NORMAL_EPSILON, EPSILON] at h2

/-- Claim C8 (amended): the offset used by the central-difference normal
estimator is distinct from the marching hit threshold EPSILON, but it is
strictly larger, namely five times the threshold. -/
theorem surface_normal_offset_larger :
    SURFACE_NORMAL_EPSILON ≠ EPSILON ∧ EPSILON < SURFACE_NORMAL_EPSILON ∧
      SURFACE_NORMAL_EPSILON = 5 * EPSILON := by
  refine ⟨by norm_num [SURFACE_NORMAL_EPSILON, EPSILON], ?_, ?_⟩ <;>
    norm_num [SURFACE_NORMAL_EPSILON, EPSILON]

/-- Claim C4: for every cube with half-extent h > 0, the cube distance
function of the source equals the exact box SDF formula of the spec,
length(max(q, 0)) + min(max(q.x, q.y, q.z), 0) with
q = componentwise_abs(p - c) - h, and at the center it evaluates to -h. -/
theorem cube_sdf_matches_box_formula (i : ℕ) (c : Vec3) (h : ℝ) (p : Vec3) (hh : 0 < h) :
    Shape.sdf (Shape.cube i c h) p = boxSdfSpec c h p ∧
      Shape.sdf (Shape.cube i c h) c = -h := by
  constructor
  · simp only [Shape.sdf, boxSdfSpec]
    congr 1
    congr 1
    exact max_comm _ _
  · simp only [Shape.sdf, absolute, Vec3.sub_def, Vec3.subScalar, Vec3.vmax, sub_self,
      abs_zero, zero_sub]
    have h0 : max (-h) 0 = 0 := max_eq_right (by linarith)
    simp only [h0, max_self]
    have hlen : Vec3.length ⟨0, 0, 0⟩ = 0 := by
      simp [Vec3.length, Vec3.dot]
    rw [hlen, min_eq_left (by linarith : -h ≤ 0), zero_add]

/-- Witness for claim C4 at a concrete cube and point. -/
theorem cube_sdf_matches_box_formula_witness :
    (0 : ℝ) < 1 ∧
      (Shape.sdf (Shape.cube 0 ⟨1, 2, 3⟩ 1) ⟨1, 2, 5⟩ = boxSdfSpec ⟨1, 2, 3⟩ 1 ⟨1, 2, 5⟩ ∧
        Shape.sdf (Shape.cube 0 ⟨1, 2, 3⟩ 1) ⟨1, 2, 3⟩ = -1) :=
  ⟨by norm_num, cube_sdf_matches_box_formula 0 ⟨1, 2, 3⟩ 1 ⟨1, 2, 5⟩ (by norm_num)⟩

/-- Claim C10: each active movement key contributes exactly 0.1 world
units, additively and independently of the others: W and S move eye.z and
target.z together, A and D move eye.x and target.x together, SPACE and C
move only eye.y and leave the target and the up vector unchanged. -/
theorem movement_additive_spec (camera : Camera) (k : Keys) :
    check_movement camera k =
      { eye := ⟨camera.eye.x - (if k.a then 0.1 else 0) + (if k.d then 0.1 else 0),
                camera.eye.y + (if k.space then 0.1 else 0) - (if k.c then 0.1 else 0),
                camera.eye.z + (if k.w then 0.1 else 0) - (if k.s then 0.1 else 0)⟩,
        target := ⟨camera.target.x - (if k.a then 0.1 else 0) + (if k.d then 0.1 else 0),
                   camera.target.y,
                   camera.target.z + (if k.w then 0.1 else 0) - (if k.s then 0.1 else 0)⟩,
        up := camera.up } := by
  obtain ⟨kw, ks, ka, kd, ksp, kc, kq, ke⟩ := k
  obtain ⟨⟨ex, ey, ez⟩, ⟨tx, ty, tz⟩, u⟩ := camera
  simp only [check_movement]
  cases kw <;> cases ks <;> cases ka <;> cases kd <;> cases ksp <;> cases kc <;>
    simp [Camera.mk.injEq, Vec3.mk.injEq]

/-- Claim C6: every color produced by the illumination step has all three
channels inside [0, 255] after the final clamp, so the range assertions
of v3_into_color succeed (the real-valued embedding has no NaN, so every
configuration is non-degenerate in the sense of the claim). -/
theorem illuminate_channels_in_range (lt : Lighting) (camera : Camera) (p : Vec3)
    (object : Shape) :
    (0 ≤ (illuminate lt camera p object).x ∧ (illuminate lt camera p object).x ≤ 255) ∧
      (0 ≤ (illuminate lt camera p object).y ∧ (illuminate lt camera p object).y ≤ 255) ∧
      (0 ≤ (illuminate lt camera p object).z ∧ (illuminate lt camera p object).z ≤ 255) ∧
      (v3_into_color (illuminate lt camera p object)).isSome = true := by
  obtain ⟨w, hw⟩ : ∃ w, illuminate lt camera p object = Vec3.clampRange w 0 255 := ⟨_, rfl⟩
  rw [hw]
  have key : (0 ≤ (Vec3.clampRange w 0 255).x ∧ (Vec3.clampRange w 0 255).x ≤ 255) ∧
      (0 ≤ (Vec3.clampRange w 0 255).y ∧ (Vec3.clampRange w 0 255).y ≤ 255) ∧
      (0 ≤ (Vec3.clampRange w 0 255).z ∧ (Vec3.clampRange w 0 255).z ≤ 255) := by
    simp only [Vec3.clampRange]
    refine ⟨⟨?_, ?_⟩, ⟨?_, ?_⟩, ⟨?_, ?_⟩⟩
    all_goals first
      | exact le_min (le_max_right _ _) (by norm_num)
      | exact min_le_right _ _
  obtain ⟨hx, hy, hz⟩ := key
  refine ⟨hx, hy, hz, ?_⟩
  unfold v3_into_color
  rw [if_pos ⟨hx.1, hy.1, hz.1, hx.2, hy.2, hz.2⟩]
  rfl

theorem Vec3.add_assoc_vec (a b c : Vec3) : a + b + c = a + (b + c) := by
  simp only [Vec3.add_def, Vec3.mk.injEq]
  refine ⟨?_, ?_, ?_⟩ <;> ring

theorem foldl_add_eq_sumVec (f : LightSource → Vec3) (l : List LightSource) (a : Vec3) :
    l.foldl (fun acc ls => acc + f ls) a = a + sumVec (l.map f) := by
  induction l generalizing a with
  | nil => simp [sumVec, Vec3.add_zero_vec]
  | cons hd tl ih =>
    simp only [List.foldl, List.map, sumVec]
    rw [ih (a + f hd), Vec3.add_assoc_vec]

theorem sumVec_replicate (m : ℕ) (v : Vec3) :
    sumVec (List.replicate m v) = Vec3.smul v (m : ℝ) := by
  induction m with
  | zero => simp [sumVec, Vec3.smul]
  | succ n ih =>
    simp only [List.replicate, sumVec, ih, Vec3.add_def, Vec3.smul, Vec3.mk.injEq]
    push_cast
    refine ⟨?_, ?_, ?_⟩ <;> ring

/-- Claim C5: the illumination accumulates, per light source,
diffuse * (max(L.N, 0) + ia) + specular * max(V.R, 0)^alpha into a
running sum (stated as the sum of the mapped per-light contributions,
whose definition carries the ambient term ia inside the diffuse factor of
every summand); with m identical lights the pre-clamp sum is the single
contribution scaled by m, so the ambient contribution scales with the
number of lights. -/
theorem illuminate_accumulates_per_light (lt : Lighting) (camera : Camera) (p : Vec3)
    (object : Shape) (m : ℕ) ( ls0 : LightSource) :
    illuminate lt camera p object =
      Vec3.clampRange (Vec3.smul (sumVec (lt.light_sources.map
        (lightContribution lt (surface_normal object p)
          (Vec3.normalized (camera.eye - p)) p))) 255) 0 255 ∧
      illuminate { lt with light_sources := List.replicate m ls0 } camera p object =
        Vec3.clampRange (Vec3.smul (Vec3.smul (lightContribution lt (surface_normal object p)
          (Vec3.normalized (camera.eye - p)) p ls0) (m : ℝ)) 255) 0 255 := by
  constructor
  · simp only [illuminate]
    rw [foldl_add_eq_sumVec, Vec3.zero_add_vec]
  · simp only [illuminate]
    rw [foldl_add_eq_sumVec, Vec3.zero_add_vec]
    rw [List.map_replicate, sumVec_replicate]
    rfl

theorem sceneDist_eq_none_iff (sc : Scene) (p : Vec3) :
    sceneDist sc p = none ↔ sc.objects = [] := by
  cases h : sc.objects with
  | nil => simp [sceneDist, h, minByNearest]
  | cons a l => simp [sceneDist, h, minByNearest]

theorem foldl_min_spec (l : List (ℝ × ℕ)) : ∀ a : ℝ × ℕ,
    (l.foldl (fun a b => if b.1 < a.1 then b else a) a = a ∨
      l.foldl (fun a b => if b.1 < a.1 then b else a) a ∈ l) ∧
    (l.foldl (fun a b => if b.1 < a.1 then b else a) a).1 ≤ a.1 ∧
    ∀ r ∈ l, (l.foldl (fun a b => if b.1 < a.1 then b else a) a).1 ≤ r.1 := by
  induction l with
  | nil =>
    intro a
    exact ⟨Or.inl rfl, le_refl _, by simp⟩
  | cons hd tl ih =>
    intro a
    simp only [List.foldl]
    obtain ⟨hmem, hle, hall⟩ := ih (if hd.1 < a.1 then hd else a)
    have hstep_le_a : (if hd.1 < a.1 then hd else a).1 ≤ a.1 := by
      by_cases hc : hd.1 < a.1 <;> simp [hc, le_of_lt]
    have hstep_le_hd : (if hd.1 < a.1 then hd else a).1 ≤ hd.1 := by
      by_cases hc : hd.1 < a.1 <;> simp [hc, le_of_not_lt]
    refine ⟨?_, le_trans hle hstep_le_a, ?_⟩
    · rcases hmem with h | h
      · rw [h]
        by_cases hc : hd.1 < a.1
        · rw [if_pos hc]; exact Or.inr (List.mem_cons_self _ _)
        · rw [if_neg hc]; exact Or.inl rfl
      · exact Or.inr (List.mem_cons_of_mem _ h)
    · intro r hr
      rcases List.mem_cons.mp hr with rfl | hr
      · exact le_trans hle hstep_le_hd
      · exact hall r hr

/-- Claim C3: for every point and every scene owning at least one shape,
the union reduction returns the minimum over all owned shapes of the
shape distance at the point, paired with the id of a shape attaining
that minimum. -/
theorem scene_union_is_min (sc : Scene) (p : Vec3) (hne : sc.objects ≠ []) :
    ∃ d i, sceneDist sc p = some (d, i) ∧
      (∀ s ∈ sc.objects, d ≤ Shape.sdf s p) ∧
      ∃ s ∈ sc.objects, Shape.id s = i ∧ Shape.sdf s p = d := by
  obtain ⟨s0, rest, hobj⟩ : ∃ s0 rest, sc.objects = s0 :: rest := by
    cases h : sc.objects with
    | nil => exact absurd h hne
    | cons a l => exact ⟨a, l, rfl⟩
  have hmap : sc.objects.map (fun o => Shape.dist o p) =
      Shape.dist s0 p :: rest.map (fun o => Shape.dist o p) := by
    rw [hobj]; rfl
  obtain ⟨hmem, hle0, hall⟩ :=
    foldl_min_spec (rest.map (fun o => Shape.dist o p)) (Shape.dist s0 p)
  have hscene : sceneDist sc p = some ((rest.map (fun o => Shape.dist o p)).foldl
      (fun a b => if b.1 < a.1 then b else a) (Shape.dist s0 p)) := by
    unfold sceneDist
    rw [hmap]
    rfl
  refine ⟨_, _, hscene, ?_, ?_⟩
  · intro s hs
    rw [hobj] at hs
    rcases List.mem_cons.mp hs with rfl | hs
    · simpa [Shape.dist] using hle0
    · have hm : Shape.dist s p ∈ rest.map (fun o => Shape.dist o p) :=
        List.mem_map_of_mem _ hs
      simpa [Shape.dist] using hall _ hm
  · rcases hmem with h | h
    · refine ⟨s0, ?_, ?_, ?_⟩
      · rw [hobj]; exact List.mem_cons_self _ _
      · rw [h]; rfl
      · rw [h]; rfl
    · obtain ⟨s, hs, hedist⟩ := List.mem_map.mp h
      refine ⟨s, ?_, ?_, ?_⟩
      · rw [hobj]; exact List.mem_cons_of_mem _ hs
      · rw [← hedist]; rfl
      · rw [← hedist]; rfl

/-- Witness for claim C3 on a one-sphere scene. -/
theorem scene_union_is_min_witness :
    (Scene.mk [Shape.sphere 0 ⟨0, 0, 0⟩ 1]).objects ≠ [] ∧
      ∃ d i, sceneDist (Scene.mk [Shape.sphere 0 ⟨0, 0, 0⟩ 1]) ⟨2, 0, 0⟩ = some (d, i) ∧
        (∀ s ∈ (Scene.mk [Shape.sphere 0 ⟨0, 0, 0⟩ 1]).objects,
          d ≤ Shape.sdf s ⟨2, 0, 0⟩) ∧
        ∃ s ∈ (Scene.mk [Shape.sphere 0 ⟨0, 0, 0⟩ 1]).objects, Shape.id s = i ∧
          Shape.sdf s ⟨2, 0, 0⟩ = d :=
  ⟨by simp, scene_union_is_min (Scene.mk [Shape.sphere 0 ⟨0, 0, 0⟩ 1]) ⟨2, 0, 0⟩ (by simp)⟩

theorem rayMarchAux_succ (sc : Scene) (pos ray : Vec3) (n : ℕ) (depth : ℝ) :
    rayMarchAux sc pos ray (n + 1) depth =
      match sceneDist sc (pos + Vec3.smul ray depth) with
      | none => none
      | some (dist, obj) =>
        if dist ≤ EPSILON then some (pos + Vec3.smul ray depth, obj)
        else rayMarchAux sc pos ray n (depth + dist) := rfl

theorem march_immediate (sc : Scene) (pos ray : Vec3) (d : ℝ) (o : ℕ)
    (h : sceneDist sc pos = some (d, o)) (hle : d ≤ EPSILON) :
    ray_march sc pos ray = some (pos, o) := by
  show rayMarchAux sc pos ray (99 + 1) 0 = some (pos, o)
  rw [rayMarchAux_succ, add_smul_zero, h]
  simp [hle]

/-- Claim C7: a ray whose origin samples a negative union distance hits
immediately on the first iteration, at depth 0, so the returned hit point
is the ray origin itself. -/
theorem inside_origin_immediate_hit (sc : Scene) (pos ray : Vec3) (d : ℝ) (o : ℕ)
    (h : sceneDist sc pos = some (d, o)) (hneg : d < 0) :
    ray_march sc pos ray = some (pos, o) :=
  march_immediate sc pos ray d o h (le_of_lt (lt_of_lt_of_le hneg (by norm_num [EPSILON])))

/-- Witness for claim C7: the origin inside the unit sphere. -/
theorem inside_origin_immediate_hit_witness :
    sceneDist (Scene.mk [Shape.sphere 0 ⟨0, 0, 0⟩ 1]) ⟨0, 0, 0⟩ = some (-1, 0) ∧
      (-1 : ℝ) < 0 ∧
      ray_march (Scene.mk [Shape.sphere 0 ⟨0, 0, 0⟩ 1]) ⟨0, 0, 0⟩ ⟨1, 0, 0⟩ =
        some (⟨0, 0, 0⟩, 0) := by
  have h : sceneDist (Scene.mk [Shape.sphere 0 ⟨0, 0, 0⟩ 1]) ⟨0, 0, 0⟩ = some (-1, 0) := by
    unfold sceneDist
    simp [minByNearest, Shape.dist, Shape.sdf, Shape.id, Vec3.sub_def, Vec3.length, Vec3.dot]
  exact ⟨h, by norm_num,
    inside_origin_immediate_hit (Scene.mk [Shape.sphere 0 ⟨0, 0, 0⟩ 1]) ⟨0, 0, 0⟩ ⟨1, 0, 0⟩
      (-1) 0 h (by norm_num)⟩

theorem rayMarchAux_characterization (sc : Scene) (pos ray : Vec3) : ∀ n k,
    (∃ j, j < n ∧ (∀ i, i < j → ¬ marchHit sc pos ray (k + i)) ∧
      ∃ d o, sceneDist sc (marchPoint sc pos ray (k + j)) = some (d, o) ∧ d ≤ EPSILON ∧
        rayMarchAux sc pos ray n (marchDepth sc pos ray k) =
          some (marchPoint sc pos ray (k + j), o)) ∨
    ((∀ j, j < n → ¬ marchHit sc pos ray (k + j)) ∧
      rayMarchAux sc pos ray n (marchDepth sc pos ray k) = none) := by
  intro n
  induction n with
  | zero =>
    intro k
    exact Or.inr ⟨fun j hj => absurd hj (Nat.not_lt_zero j), rfl⟩
  | succ n ih =>
    intro k
    have hpt : pos + Vec3.smul ray (marchDepth sc pos ray k) = marchPoint sc pos ray k := rfl
    rcases h : sceneDist sc (marchPoint sc pos ray k) with _ | ⟨d, o⟩
    · refine Or.inr ⟨?_, ?_⟩
      · have hempty : sc.objects = [] := (sceneDist_eq_none_iff sc _).mp h
        intro j hj
        rintro ⟨d2, o2, hs, hle2⟩
        rw [(sceneDist_eq_none_iff sc _).mpr hempty] at hs
        exact Option.noConfusion hs
      · rw [rayMarchAux_succ, hpt, h]
    · by_cases hd : d ≤ EPSILON
      · refine Or.inl ⟨0, Nat.succ_pos n, fun i hi => absurd hi (Nat.not_lt_zero i),
          d, o, ?_, hd, ?_⟩
        · simpa using h
        · rw [rayMarchAux_succ, hpt, h]
          dsimp only
          rw [if_pos hd]
          simp
      · have hnothit : ¬ marchHit sc pos ray k := by
          rintro ⟨d2, o2, hs, hle2⟩
          rw [h] at hs
          cases hs
          exact hd hle2
        have hdepth : marchDepth sc pos ray (k + 1) = marchDepth sc pos ray k + d := by
          simp only [marchDepth]
          rw [hpt, h]
        have hstep : rayMarchAux sc pos ray (n + 1) (marchDepth sc pos ray k) =
            rayMarchAux sc pos ray n (marchDepth sc pos ray (k + 1)) := by
          rw [rayMarchAux_succ, hpt, h]
          dsimp only
          rw [if_neg hd, hdepth]
        rcases ih (k + 1) with ⟨j, hj, hpre, d2, o2, hs2, hle2, heq⟩ | ⟨hall, heq⟩
        · refine Or.inl ⟨j + 1, Nat.succ_lt_succ hj, ?_, d2, o2, ?_, hle2, ?_⟩
          · intro i hi
            cases i with
            | zero => simpa using hnothit
            | succ i2 =>
              have hidx : k + 1 + i2 = k + (i2 + 1) := by omega
              have := hpre i2 (Nat.lt_of_succ_lt_succ hi)
              rwa [hidx] at this
          · have hidx : k + 1 + j = k + (j + 1) := by omega
            rwa [hidx] at hs2
          · have hidx : k + 1 + j = k + (j + 1) := by omega
            rw [hidx] at heq
            rw [hstep]
            exact heq
        · refine Or.inr ⟨?_, ?_⟩
          · intro j hj
            cases j with
            | zero => simpa using hnothit
            | succ j2 =>
              have hidx : k + 1 + j2 = k + (j2 + 1) := by omega
              have := hall j2 (Nat.lt_of_succ_lt_succ hj)
              rwa [hidx] at this
          · rw [hstep]
            exact heq

/-- Claim C2: the marcher performs at most MAX_MARCHING_STEPS = 100
iterations of the loop whose depth sequence advances by the sampled union
distance; the result is the sample point of the first iteration whose
union distance is at most EPSILON (paired with the owner id returned by
the union reduction), and none when no iteration under the budget hits —
never an error. -/
theorem ray_march_bounded_spec (sc : Scene) (pos ray : Vec3) :
    (∃ k, k < MAX_MARCHING_STEPS ∧ (∀ i, i < k → ¬ marchHit sc pos ray i) ∧
      ∃ d o, sceneDist sc (marchPoint sc pos ray k) = some (d, o) ∧ d ≤ EPSILON ∧
        ray_march sc pos ray = some (marchPoint sc pos ray k, o)) ∨
    ((∀ k, k < MAX_MARCHING_STEPS → ¬ marchHit sc pos ray k) ∧
      ray_march sc pos ray = none) := by
  have h := rayMarchAux_characterization sc pos ray MAX_MARCHING_STEPS 0
  simpa [ray_march] using h

theorem rayMarchAux_empty (pos ray : Vec3) (n : ℕ) (depth : ℝ) :
    rayMarchAux (Scene.mk []) pos ray n depth = none := by
  cases n with
  | zero => rfl
  | succ n => rfl

theorem ray_march_empty (pos ray : Vec3) : ray_march (Scene.mk []) pos ray = none :=
  rayMarchAux_empty pos ray MAX_MARCHING_STEPS 0

theorem filterMap_of_all_none (f : ℕ × ℕ → Option (ℕ × ℕ × Vec3))
    (hf : ∀ a, f a = none) : ∀ l : List (ℕ × ℕ), l.filterMap f = [] := by
  intro l
  induction l with
  | nil => rfl
  | cons a tl ih => rw [List.filterMap_cons, hf a, ih]

/-- Claim C9: marching any ray against a scene owning no shape returns
no-hit, and the per-frame entry list of the empty scene is empty for
every camera, lighting and field of view. -/
theorem empty_scene_no_entries (pos ray : Vec3) (camera : Camera) (lt : Lighting) (fov : ℝ) :
    ray_march (Scene.mk []) pos ray = none ∧
      renderEntries (Scene.mk []) camera lt fov = [] := by
  refine ⟨ray_march_empty pos ray, ?_⟩
  unfold renderEntries
  have hpix : ∀ xy : ℕ × ℕ, renderPixel (Scene.mk []) camera lt fov xy = none := by
    intro xy
    simp only [renderPixel]
    rw [ray_march_empty]
  exact filterMap_of_all_none _ hpix pixelList

theorem cube_sdf_inside (i : ℕ) (c p : Vec3)
    (hx : |p.x - c.x| ≤ 1) (hy : |p.y - c.y| ≤ 1) (hz : |p.z - c.z| ≤ 1) :
    Shape.sdf (Shape.cube i c 1) p =
      max (max (|p.y - c.y| - 1) (|p.z - c.z| - 1)) (|p.x - c.x| - 1) := by
  simp only [Shape.sdf, absolute, Vec3.sub_def, Vec3.subScalar, Vec3.vmax]
  have h1 : max (|p.x - c.x| - 1) 0 = 0 := max_eq_right (by linarith)
  have h2 : max (|p.y - c.y| - 1) 0 = 0 := max_eq_right (by linarith)
  have h3 : max (|p.z - c.z| - 1) 0 = 0 := max_eq_right (by linarith)
  rw [h1, h2, h3]
  have hlen : Vec3.length ⟨0, 0, 0⟩ = 0 := by
    simp [Vec3.length, Vec3.dot]
  rw [hlen]
  have hm : max (max (|p.y - c.y| - 1) (|p.z - c.z| - 1)) (|p.x - c.x| - 1) ≤ 0 := by
    refine max_le (max_le ?_ ?_) ?_ <;> linarith
  rw [min_eq_left hm, zero_add]

theorem sdfA_p0 : Shape.sdf cubeA ⟨0.9504, 0.95, 0⟩ = -0.0496 := by
  rw [show cubeA = Shape.cube 0 ⟨0, 0, 0⟩ 1 from rfl]
  rw [cube_sdf_inside] <;> norm_num [abs_of_nonpos, abs_of_nonneg, max_def, min_def]

theorem sdfA_xp : Shape.sdf cubeA ⟨0.9509, 0.95, 0⟩ = -0.0491 := by
  rw [show cubeA = Shape.cube 0 ⟨0, 0, 0⟩ 1 from rfl]
  rw [cube_sdf_inside] <;> norm_num [abs_of_nonpos, abs_of_nonneg, max_def, min_def]

theorem sdfA_xm : Shape.sdf cubeA ⟨0.9499, 0.95, 0⟩ = -0.05 := by
  rw [show cubeA = Shape.cube 0 ⟨0, 0, 0⟩ 1 from rfl]
  rw [cube_sdf_inside] <;> norm_num [abs_of_nonpos, abs_of_nonneg, max_def, min_def]

theorem sdfA_yp : Shape.sdf cubeA ⟨0.9504, 0.9505, 0⟩ = -0.0495 := by
  rw [show cubeA = Shape.cube 0 ⟨0, 0, 0⟩ 1 from rfl]
  rw [cube_sdf_inside] <;> norm_num [abs_of_nonpos, abs_of_nonneg, max_def, min_def]

theorem sdfA_ym : Shape.sdf cubeA ⟨0.9504, 0.9495, 0⟩ = -0.0496 := by
  rw [show cubeA = Shape.cube 0 ⟨0, 0, 0⟩ 1 from rfl]
  rw [cube_sdf_inside] <;> norm_num [abs_of_nonpos, abs_of_nonneg, max_def, min_def]

theorem sdfA_zp : Shape.sdf cubeA ⟨0.9504, 0.95, 0.0005⟩ = -0.0496 := by
  rw [show cubeA = Shape.cube 0 ⟨0, 0, 0⟩ 1 from rfl]
  rw [cube_sdf_inside] <;> norm_num [abs_of_nonpos, abs_of_nonneg, max_def, min_def]

theorem sdfA_zm : Shape.sdf cubeA ⟨0.9504, 0.95, -0.0005⟩ = -0.0496 := by
  rw [show cubeA = Shape.cube 0 ⟨0, 0, 0⟩ 1 from rfl]
  rw [cube_sdf_inside] <;> norm_num [abs_of_nonpos, abs_of_nonneg, max_def, min_def]

theorem sdfB_p0 : Shape.sdf cubeB ⟨0.9504, 0.95, 0⟩ = -0.05 := by
  rw [show cubeB = Shape.cube 1 ⟨1.9, 1.9, 0⟩ 1 from rfl]
  rw [cube_sdf_inside] <;> norm_num [abs_of_nonpos, abs_of_nonneg, max_def, min_def]

theorem sdfB_xp : Shape.sdf cubeB ⟨0.9509, 0.95, 0⟩ = -0.05 := by
  rw [show cubeB = Shape.cube 1 ⟨1.9, 1.9, 0⟩ 1 from rfl]
  rw [cube_sdf_inside] <;> norm_num [abs_of_nonpos, abs_of_nonneg, max_def, min_def]

theorem sdfB_xm : Shape.sdf cubeB ⟨0.9499, 0.95, 0⟩ = -0.0499 := by
  rw [show cubeB = Shape.cube 1 ⟨1.9, 1.9, 0⟩ 1 from rfl]
  rw [cube_sdf_inside] <;> norm_num [abs_of_nonpos, abs_of_nonneg, max_def, min_def]

theorem sdfB_yp : Shape.sdf cubeB ⟨0.9504, 0.9505, 0⟩ = -0.0504 := by
  rw [show cubeB = Shape.cube 1 ⟨1.9, 1.9, 0⟩ 1 from rfl]
  rw [cube_sdf_inside] <;> norm_num [abs_of_nonpos, abs_of_nonneg, max_def, min_def]

theorem sdfB_ym : Shape.sdf cubeB ⟨0.9504, 0.9495, 0⟩ = -0.0495 := by
  rw [show cubeB = Shape.cube 1 ⟨1.9, 1.9, 0⟩ 1 from rfl]
  rw [cube_sdf_inside] <;> norm_num [abs_of_nonpos, abs_of_nonneg, max_def, min_def]

theorem sdfB_zp : Shape.sdf cubeB ⟨0.9504, 0.95, 0.0005⟩ = -0.05 := by
  rw [show cubeB = Shape.cube 1 ⟨1.9, 1.9, 0⟩ 1 from rfl]
  rw [cube_sdf_inside] <;> norm_num [abs_of_nonpos, abs_of_nonneg, max_def, min_def]

theorem sdfB_zm : Shape.sdf cubeB ⟨0.9504, 0.95, -0.0005⟩ = -0.05 := by
  rw [show cubeB = Shape.cube 1 ⟨1.9, 1.9, 0⟩ 1 from rfl]
  rw [cube_sdf_inside] <;> norm_num [abs_of_nonpos, abs_of_nonneg, max_def, min_def]

theorem sceneDist_twoCubes_lt (p : Vec3) (vA vB : ℝ) (hA : Shape.sdf cubeA p = vA)
    (hB : Shape.sdf cubeB p = vB) (hlt : vB < vA) :
    sceneDist twoCubes p = some (vB, 1) := by
  unfold sceneDist
  rw [show twoCubes.objects = [cubeA, cubeB] from rfl]
  simp only [List.map, minByNearest, List.foldl, Shape.dist]
  rw [hA, hB, show Shape.id cubeA = 0 from rfl, show Shape.id cubeB = 1 from rfl]
  rw [if_pos (by exact hlt : ((vB, 1) : ℝ × ℕ).1 < ((vA, 0) : ℝ × ℕ).1)]

theorem sceneDist_twoCubes_ge (p : Vec3) (vA vB : ℝ) (hA : Shape.sdf cubeA p = vA)
    (hB : Shape.sdf cubeB p = vB) (hge : ¬ vB < vA) :
    sceneDist twoCubes p = some (vA, 0) := by
  unfold sceneDist
  rw [show twoCubes.objects = [cubeA, cubeB] from rfl]
  simp only [List.map, minByNearest, List.foldl, Shape.dist]
  rw [hA, hB, show Shape.id cubeA = 0 from rfl, show Shape.id cubeB = 1 from rfl]
  rw [if_neg (by exact hge : ¬ ((vB, 1) : ℝ × ℕ).1 < ((vA, 0) : ℝ × ℕ).1)]

theorem sceneSdfVal_twoCubes_lt (p : Vec3) (vA vB : ℝ) (hA : Shape.sdf cubeA p = vA)
    (hB : Shape.sdf cubeB p = vB) (hlt : vB < vA) : sceneSdfVal twoCubes p = vB := by
  unfold sceneSdfVal
  rw [sceneDist_twoCubes_lt p vA vB hA hB hlt]

theorem sceneSdfVal_twoCubes_ge (p : Vec3) (vA vB : ℝ) (hA : Shape.sdf cubeA p = vA)
    (hB : Shape.sdf cubeB p = vB) (hge : ¬ vB < vA) : sceneSdfVal twoCubes p = vA := by
  unfold sceneSdfVal
  rw [sceneDist_twoCubes_ge p vA vB hA hB hge]

theorem sample_xp : (⟨mpos.x + SURFACE_NORMAL_EPSILON, mpos.y, mpos.z⟩ : Vec3) =
    ⟨0.9509, 0.95, 0⟩ := by
  norm_num [mpos, SURFACE_NORMAL_EPSILON, Vec3.mk.injEq]

theorem sample_xm : (⟨mpos.x - SURFACE_NORMAL_EPSILON, mpos.y, mpos.z⟩ : Vec3) =
    ⟨0.9499, 0.95, 0⟩ := by
  norm_num [mpos, SURFACE_NORMAL_EPSILON, Vec3.mk.injEq]

theorem sample_yp : (⟨mpos.x, mpos.y + SURFACE_NORMAL_EPSILON, mpos.z⟩ : Vec3) =
    ⟨0.9504, 0.9505, 0⟩ := by
  norm_num [mpos, SURFACE_NORMAL_EPSILON, Vec3.mk.injEq]

theorem sample_ym : (⟨mpos.x, mpos.y - SURFACE_NORMAL_EPSILON, mpos.z⟩ : Vec3) =
    ⟨0.9504, 0.9495, 0⟩ := by
  norm_num [mpos, SURFACE_NORMAL_EPSILON, Vec3.mk.injEq]

theorem sample_zp : (⟨mpos.x, mpos.y, mpos.z + SURFACE_NORMAL_EPSILON⟩ : Vec3) =
    ⟨0.9504, 0.95, 0.0005⟩ := by
  norm_num [mpos, SURFACE_NORMAL_EPSILON, Vec3.mk.injEq]

theorem sample_zm : (⟨mpos.x, mpos.y, mpos.z - SURFACE_NORMAL_EPSILON⟩ : Vec3) =
    ⟨0.9504, 0.95, -0.0005⟩ := by
  norm_num [mpos, SURFACE_NORMAL_EPSILON, Vec3.mk.injEq]

theorem sceneFieldNormal_twoCubes :
    sceneFieldNormal twoCubes mpos = Vec3.normalized ⟨0, -0.0008, 0⟩ := by
  have v1 : sceneSdfVal twoCubes ⟨0.9509, 0.95, 0⟩ = -0.05 :=
    sceneSdfVal_twoCubes_lt _ _ _ sdfA_xp sdfB_xp (by norm_num)
  have v2 : sceneSdfVal twoCubes ⟨0.9499, 0.95, 0⟩ = -0.05 :=
    sceneSdfVal_twoCubes_ge _ _ _ sdfA_xm sdfB_xm (by norm_num)
  have v3 : sceneSdfVal twoCubes ⟨0.9504, 0.9505, 0⟩ = -0.0504 :=
    sceneSdfVal_twoCubes_lt _ _ _ sdfA_yp sdfB_yp (by norm_num)
  have v4 : sceneSdfVal twoCubes ⟨0.9504, 0.9495, 0⟩ = -0.0496 :=
    sceneSdfVal_twoCubes_ge _ _ _ sdfA_ym sdfB_ym (by norm_num)
  have v5 : sceneSdfVal twoCubes ⟨0.9504, 0.95, 0.0005⟩ = -0.05 :=
    sceneSdfVal_twoCubes_lt _ _ _ sdfA_zp sdfB_zp (by norm_num)
  have v6 : sceneSdfVal twoCubes ⟨0.9504, 0.95, -0.0005⟩ = -0.05 :=
    sceneSdfVal_twoCubes_lt _ _ _ sdfA_zm sdfB_zm (by norm_num)
  dsimp only [sceneFieldNormal]
  rw [sample_xp, sample_xm, sample_yp, sample_ym, sample_zp, sample_zm]
  rw [v1, v2, v3, v4, v5, v6]
  norm_num

theorem shadingNormal_twoCubes :
    shadingNormal twoCubes 1 mpos = Vec3.normalized ⟨-0.0001, -0.0009, 0⟩ := by
  unfold shadingNormal
  rw [show twoCubes.objects.find? (fun o => Shape.id o == 1) = some cubeB from rfl]
  dsimp only [surface_normal]
  rw [sample_xp, sample_xm, sample_yp, sample_ym, sample_zp, sample_zm]
  rw [sdfB_xp, sdfB_xm, sdfB_yp, sdfB_ym, sdfB_zp, sdfB_zm]
  norm_num

theorem normalized_witness_ne :
    Vec3.normalized ⟨-0.0001, -0.0009, 0⟩ ≠ Vec3.normalized ⟨0, -0.0008, 0⟩ := by
  intro hEq
  have hx := congrArg Vec3.x hEq
  simp only [Vec3.normalized, Vec3.smul] at hx
  rw [zero_mul] at hx
  have hDne : (if Vec3.length ⟨-0.0001, -0.0009, 0⟩ = 0 then (1 : ℝ)
      else Vec3.length ⟨-0.0001, -0.0009, 0⟩) ≠ 0 := by
    by_cases h0 : Vec3.length ⟨-0.0001, -0.0009, 0⟩ = 0
    · rw [if_pos h0]; norm_num
    · rw [if_neg h0]; exact h0
  have h1 : (1 : ℝ) / (if Vec3.length ⟨-0.0001, -0.0009, 0⟩ = 0 then 1
      else Vec3.length ⟨-0.0001, -0.0009, 0⟩) ≠ 0 := one_div_ne_zero hDne
  rcases mul_eq_zero.mp hx with h | h
  · norm_num at h
  · exact h1 h

theorem sceneDist_twoCubes_mpos : sceneDist twoCubes mpos = some (-0.05, 1) :=
  sceneDist_twoCubes_lt mpos (-0.0496) (-0.05)
    (by rw [show mpos = (⟨0.9504, 0.95, 0⟩ : Vec3) from rfl]; exact sdfA_p0)
    (by rw [show mpos = (⟨0.9504, 0.95, 0⟩ : Vec3) from rfl]; exact sdfB_p0)
    (by norm_num)

theorem twoCubes_march : ray_march twoCubes mpos mray = some (mpos, 1) :=
  march_immediate twoCubes mpos mray (-0.05) 1 sceneDist_twoCubes_mpos
    (by norm_num [EPSILON])

/-- Claim C1 counterexample: in the two-cube scene the marcher hits at
mpos with owner id 1 (the second cube), but the normal the shading uses
(the central-difference gradient of that single cube's field) differs
from the normalized central-difference gradient of the scene's combined
nearest-surface field at the same point, so the claim fails as stated. -/
theorem normal_scene_field_counterexample :
    ray_march twoCubes mpos mray = some (mpos, 1) ∧
      shadingNormal twoCubes 1 mpos ≠ sceneFieldNormal twoCubes mpos := by
  refine ⟨twoCubes_march, ?_⟩
  rw [shadingNormal_twoCubes, sceneFieldNormal_twoCubes]
  exact normalized_witness_ne

theorem rayMarchAux_owner (sc : Scene) (pos ray : Vec3) : ∀ n depth p oid,
    rayMarchAux sc pos ray n depth = some (p, oid) →
      ∃ d, sceneDist sc p = some (d, oid) := by
  intro n
  induction n with
  | zero =>
    intro depth p oid h
    exact Option.noConfusion h
  | succ n ih =>
    intro depth p oid h
    rw [rayMarchAux_succ] at h
    rcases hs : sceneDist sc (pos + Vec3.smul ray depth) with _ | ⟨d2, o2⟩
    · rw [hs] at h
      exact Option.noConfusion h
    · rw [hs] at h
      dsimp only at h
      by_cases hd : d2 ≤ EPSILON
      · rw [if_pos hd] at h
        injection h with h2
        cases h2
        exact ⟨d2, hs⟩
      · rw [if_neg hd] at h
        exact ih _ _ _ h

theorem sceneDist_owner_mem (sc : Scene) (p : Vec3) (d : ℝ) (oid : ℕ)
    (h : sceneDist sc p = some (d, oid)) : ∃ s ∈ sc.objects, Shape.id s = oid := by
  cases hobj : sc.objects with
  | nil =>
    rw [(sceneDist_eq_none_iff sc p).mpr hobj] at h
    exact Option.noConfusion h
  | cons s0 rest =>
    have hscene : sceneDist sc p = some ((rest.map (fun o => Shape.dist o p)).foldl
        (fun a b => if b.1 < a.1 then b else a) (Shape.dist s0 p)) := by
      unfold sceneDist
      rw [show sc.objects.map (fun o => Shape.dist o p) =
        Shape.dist s0 p :: rest.map (fun o => Shape.dist o p) from by rw [hobj]; rfl]
      rfl
    have hR : (rest.map (fun o => Shape.dist o p)).foldl
        (fun a b => if b.1 < a.1 then b else a) (Shape.dist s0 p) = (d, oid) := by
      rw [hscene] at h
      exact Option.some.inj h
    obtain ⟨hmem, -, -⟩ :=
      foldl_min_spec (rest.map (fun o => Shape.dist o p)) (Shape.dist s0 p)
    rcases hmem with hm | hm
    · refine ⟨s0, List.mem_cons_self _ _, ?_⟩
      have h2 := congrArg Prod.snd hm
      rw [hR] at h2
      simpa [Shape.dist] using h2.symm
    · rw [hR] at hm
      obtain ⟨s, hsmem, hseq⟩ := List.mem_map.mp hm
      refine ⟨s, List.mem_cons_of_mem _ hsmem, ?_⟩
      have h2 := congrArg Prod.snd hseq
      simpa [Shape.dist] using h2

/-- Claim C1 (amended): for every hit (point, id) returned by the
marcher, the surface normal used for shading is the normalized
central-difference gradient of the distance field of the single hit
shape (the object the scene lookup returns for the hit id) — not of the
scene's combined field. -/
theorem shading_normal_is_hit_shape_gradient (sc : Scene) (pos ray p : Vec3) (oid : ℕ)
    (h : ray_march sc pos ray = some (p, oid)) :
    ∃ object, sc.objects.find? (fun o => Shape.id o == oid) = some object ∧
      shadingNormal sc oid p = Vec3.normalized
        ⟨Shape.sdf object ⟨p.x + SURFACE_NORMAL_EPSILON, p.y, p.z⟩ -
            Shape.sdf object ⟨p.x - SURFACE_NORMAL_EPSILON, p.y, p.z⟩,
          Shape.sdf object ⟨p.x, p.y + SURFACE_NORMAL_EPSILON, p.z⟩ -
            Shape.sdf object ⟨p.x, p.y - SURFACE_NORMAL_EPSILON, p.z⟩,
          Shape.sdf object ⟨p.x, p.y, p.z + SURFACE_NORMAL_EPSILON⟩ -
            Shape.sdf object ⟨p.x, p.y, p.z - SURFACE_NORMAL_EPSILON⟩⟩ := by
  obtain ⟨d, hsd⟩ := rayMarchAux_owner sc pos ray MAX_MARCHING_STEPS 0 p oid h
  obtain ⟨s, hsmem, hsid⟩ := sceneDist_owner_mem sc p d oid hsd
  have hsome : (sc.objects.find? (fun o => Shape.id o == oid)).isSome := by
    rw [List.find?_isSome]
    exact ⟨s, hsmem, by simp [hsid]⟩
  obtain ⟨object, hobj⟩ := Option.isSome_iff_exists.mp hsome
  refine ⟨object, hobj, ?_⟩
  unfold shadingNormal
  rw [hobj]
  rfl

/-- Witness for the amended claim C1 at the two-cube scene hit. -/
theorem shading_normal_is_hit_shape_gradient_witness :
    ray_march twoCubes mpos mray = some (mpos, 1) ∧
      ∃ object, twoCubes.objects.find? (fun o => Shape.id o == 1) = some object ∧
        shadingNormal twoCubes 1 mpos = Vec3.normalized
          ⟨Shape.sdf object ⟨mpos.x + SURFACE_NORMAL_EPSILON, mpos.y, mpos.z⟩ -
              Shape.sdf object ⟨mpos.x - SURFACE_NORMAL_EPSILON, mpos.y, mpos.z⟩,
            Shape.sdf object ⟨mpos.x, mpos.y + SURFACE_NORMAL_EPSILON, mpos.z⟩ -
              Shape.sdf object ⟨mpos.x, mpos.y - SURFACE_NORMAL_EPSILON, mpos.z⟩,
            Shape.sdf object ⟨mpos.x, mpos.y, mpos.z + SURFACE_NORMAL_EPSILON⟩ -
              Shape.sdf object ⟨mpos.x, mpos.y, mpos.z - SURFACE_NORMAL_EPSILON⟩⟩ :=
  ⟨twoCubes_march,
    shading_normal_is_hit_shape_gradient twoCubes mpos mray mpos 1 twoCubes_march⟩
